import Mathlib

/-!
Shallow embedding of the `scribe` verification pipeline
(repository `matsen/phylogenetic-compendium`, Go sources under
`scribe/internal/verify`, `scribe/internal/llm`).

Pure data and logic are translated directly from the Go source.  Effects
(subprocess invocations of the `bip`, `gh`, `claude`/`ollama` CLIs, HTTP
probes, clocks, and UUID generation) are modelled as explicit oracle
records passed to the verifier functions, so every function here is a
computable Lean function of its inputs and its oracle environment.
Go `string` is modelled as Lean `String`, Go `int` as `Int` (or `Nat`
where the Go value is a count that is provably non-negative), and a Go
`panic` as an `Option` result (`none` = panic).
-/

namespace Scribe

/-- `CheckStatus` from `verify/types.go`: pass | fail | warn. -/
inductive CheckStatus where
  | pass
  | fail
  | warn
deriving DecidableEq, Repr

/-- `CheckType` from `verify/types.go`. -/
inductive CheckType where
  | citation
  | url
  | codeLink
  | claim
  | todoMarker
deriving DecidableEq, Repr

/-- `VerificationTarget` from `verify/types.go`. -/
structure VerificationTarget where
  file : String
  line : Nat
  text : String
deriving DecidableEq, Repr

/-- `CitationDetails` from `verify/types.go`. -/
structure CitationDetails where
  paperID : String
  resolved : Bool
deriving DecidableEq, Repr

/-- `URLDetails` from `verify/types.go`. -/
structure URLDetails where
  url : String
  httpStatus : Option Int
  error : Option String
deriving DecidableEq, Repr

/-- `CodeLinkDetails` from `verify/types.go`. -/
structure CodeLinkDetails where
  permalink : String
  fileExists : Bool
  lineRangeValid : Bool
deriving DecidableEq, Repr

/-- `ClaimDetails` from `verify/types.go`. -/
structure ClaimDetails where
  claimText : String
  confidence : String
  suggestedAction : String
deriving DecidableEq, Repr

/-- `VerificationDetails` from `verify/types.go` (one optional variant per kind). -/
structure VerificationDetails where
  citation : Option CitationDetails := none
  url : Option URLDetails := none
  codeLink : Option CodeLinkDetails := none
  claim : Option ClaimDetails := none
deriving DecidableEq, Repr

/-- `VerificationResult` from `verify/types.go`.  `checkedAt` is the
timestamp, modelled as a `Nat` supplied by the environment. -/
structure VerificationResult where
  checkID : String
  checkType : CheckType
  target : VerificationTarget
  status : CheckStatus
  message : String
  details : VerificationDetails := {}
  checkedAt : Nat
deriving DecidableEq, Repr

/-- `ReportSummary` from `verify/types.go`. -/
structure ReportSummary where
  totalChecks : Nat
  passed : Nat
  failed : Nat
  warnings : Nat
deriving DecidableEq, Repr

/-- `VerificationReport` from `verify/types.go`. -/
structure VerificationReport where
  reportID : String
  generatedAt : Nat
  contentFiles : List String
  summary : ReportSummary
  results : List VerificationResult
  exitCode : Nat
deriving DecidableEq, Repr

/-! ### Report builder (`verify/report.go`) -/

/-- `ReportBuilder` from `verify/report.go`: accumulates files and results. -/
structure ReportBuilder where
  files : List String
  results : List VerificationResult
deriving DecidableEq, Repr

/-- `NewReportBuilder` from `verify/report.go`. -/
def NewReportBuilder : ReportBuilder := ⟨[], []⟩

/-- `ReportBuilder.AddFile`. -/
def ReportBuilder.AddFile (b : ReportBuilder) (file : String) : ReportBuilder :=
  { b with files := b.files ++ [file] }

/-- `ReportBuilder.AddResult`. -/
def ReportBuilder.AddResult (b : ReportBuilder) (r : VerificationResult) : ReportBuilder :=
  { b with results := b.results ++ [r] }

/-- The summary loop inside `Build`: `TotalChecks` is set to the length of
the result list up front, then one pass over the results increments the
per-status counters. -/
def buildSummary (results : List VerificationResult) : ReportSummary :=
  results.foldl
    (fun s r =>
      match r.status with
      | .pass => { s with passed := s.passed + 1 }
      | .fail => { s with failed := s.failed + 1 }
      | .warn => { s with warnings := s.warnings + 1 })
    { totalChecks := results.length, passed := 0, failed := 0, warnings := 0 }

/-- `ReportBuilder.Build` from `verify/report.go`.  `uuid.New()` and
`time.Now()` are environment-supplied (`reportID`, `now`). -/
def ReportBuilder.Build (b : ReportBuilder) (reportID : String) (now : Nat) :
    VerificationReport :=
  let summary := buildSummary b.results
  let exitCode := if summary.failed > 0 then 1 else 0
  { reportID := reportID
    generatedAt := now
    contentFiles := b.files
    summary := summary
    results := b.results
    exitCode := exitCode }

/-- Number of results in `l` with status `st`. -/
def countStatus (st : CheckStatus) (l : List VerificationResult) : Nat :=
  (l.filter (fun r => r.status = st)).length

/-! ### String scanning helpers

The Go extractors are thin wrappers around `regexp` patterns.  Each
pattern used by the source is simple enough (character classes that
exclude their follow-set delimiter) that Go's leftmost-first matching is
equivalent to deterministic maximal-munch parsing, which is what the
parsers below implement.  `FindAll*` scans positions left to right and
resumes after each (non-empty) match; the scanners below do the same,
carrying a fuel argument equal to the input length, which suffices since
every step either consumes a match (≥ 1 character) or advances one
character. -/

/-- Consume the literal `lit` from the front of `cs`, or fail. -/
def dropLit : List Char → List Char → Option (List Char)
  | [], cs => some cs
  | _ :: _, [] => none
  | p :: ps, c :: cs => if c = p then dropLit ps cs else none

/-- Decimal value of a digit run (`strconv.Atoi` on a `\d+` capture). -/
def digitsToNat (ds : List Char) : Nat :=
  ds.foldl (fun a c => 10 * a + (c.toNat - '0'.toNat)) 0

/-- Substring occurrence test on character lists. -/
def containsChars : List Char → List Char → Bool
  | [], sub => sub.isEmpty
  | c :: t, sub => sub.isPrefixOf (c :: t) || containsChars t sub

/-- `strings.Contains` / `bytes.Contains`. -/
def containsStr (hay sub : String) : Bool :=
  containsChars hay.data sub.data

/-- `strings.TrimSpace` (whitespace trimming; ASCII whitespace suffices
for all inputs the pipeline sees). -/
def trimGo (s : String) : String :=
  ⟨((s.data.dropWhile Char.isWhitespace).reverse.dropWhile Char.isWhitespace).reverse⟩

/-- `bufio.ScanLines` strips one trailing `\r` from each line. -/
def stripCR (s : String) : String :=
  if s.data.getLast? = some '\r' then ⟨s.data.dropLast⟩ else s

/-- Split a character list on `'\n'` (the token list `strings.Split`
semantics: n separators yield n+1 tokens). -/
def splitNewlines : List Char → List (List Char)
  | [] => [[]]
  | c :: cs =>
    if c = '\n' then [] :: splitNewlines cs
    else
      match splitNewlines cs with
      | h :: t => (c :: h) :: t
      | [] => [[c]]

/-- The number of UTF-8 bytes of a character (Go's `len` on strings
counts bytes). -/
def charBytes (c : Char) : Nat :=
  if c.toNat < 0x80 then 1
  else if c.toNat < 0x800 then 2
  else if c.toNat < 0x10000 then 3
  else 4

/-- Go `len(s)`: the UTF-8 byte length. -/
def goLen (s : String) : Nat :=
  s.data.foldl (fun n c => n + charBytes c) 0

/-- The line sequence produced by scanning a file with
`bufio.Scanner`/`ScanLines`: split on `\n`, no empty final token for a
trailing newline, and no lines at all for empty content. -/
def goLines (content : String) : List String :=
  if content.data.isEmpty then []
  else
    let parts := (splitNewlines content.data).map (fun l => (⟨l⟩ : String))
    let parts := if parts.getLast? = some "" then parts.dropLast else parts
    parts.map stripCR

/-- `findLineNumber` from `verify/verify.go`: 1-based index of the first
line containing `substr`, 0 if none. -/
def findLineNumber (lines : List String) (substr : String) : Nat :=
  match lines.findIdx? (fun line => containsStr line substr) with
  | some i => i + 1
  | none => 0

/-- `splitSentences` from `verify/verify.go`: split on `.`, `?`, `!`,
trimming each piece and dropping empty pieces. -/
def splitSentences (text : String) : List String :=
  let step := fun (acc : List String × List Char) (r : Char) =>
    let current := acc.2 ++ [r]
    if r = '.' ∨ r = '?' ∨ r = '!' then
      let s := trimGo ⟨current⟩
      (if s.data.length > 0 then acc.1 ++ [s] else acc.1, ([] : List Char))
    else (acc.1, current)
  let (sentences, current) := text.data.foldl step ([], [])
  let s := trimGo ⟨current⟩
  if s.data.length > 0 then sentences ++ [s] else sentences

/-! ### Citation extraction (`verify/citations.go`) -/

/-- Character class of `citationPattern`'s capture group: `[a-zA-Z0-9_-]`. -/
def isCitTokenChar (c : Char) : Bool :=
  c.isAlphanum || c = '_' || c = '-'

/-- One attempted match of `citationPattern` (`@paper:([a-zA-Z0-9_-]+)`)
at the current position: the literal marker followed by a non-empty
maximal token run.  Returns the captured token and the remainder. -/
def citParseAt (cs : List Char) : Option (String × List Char) :=
  match dropLit "@paper:".data cs with
  | none => none
  | some r =>
    let (tok, rest) := r.span isCitTokenChar
    if tok.isEmpty then none else some (⟨tok⟩, rest)

/-- `FindAllStringSubmatch` scan for `citationPattern`. -/
def citScan : Nat → List Char → List String
  | 0, _ => []
  | _ + 1, [] => []
  | fuel + 1, c :: cs =>
    match citParseAt (c :: cs) with
    | some (tok, rest) => tok :: citScan fuel rest
    | none => citScan fuel cs

/-- The raw (pre-deduplication) citation token sequence of a text. -/
def rawCitationTokens (content : String) : List String :=
  citScan content.data.length content.data

/-- The `seen`-map/append loop of `ExtractCitations`: keep the first
occurrence of each token, in order. -/
def dedupGo (seen : List String) : List String → List String
  | [] => []
  | t :: ts => if t ∈ seen then dedupGo seen ts else t :: dedupGo (t :: seen) ts

/-- `ExtractCitations` from `verify/citations.go`. -/
def ExtractCitations (content : String) : List String :=
  dedupGo [] (rawCitationTokens content)

/-! ### URL extraction (`verify/urls.go`) -/

/-- RE2 `\s`: `[\t\n\f\r ]`. -/
def isRegexSpace (c : Char) : Bool :=
  c = ' ' || c = '\t' || c = '\n' || c = '\x0c' || c = '\r'

/-- Character class `[^\s\)\]>]` of `urlPattern`. -/
def isURLChar (c : Char) : Bool :=
  !(isRegexSpace c || c = ')' || c = ']' || c = '>')

/-- One attempted match of `urlPattern` (`https?://[^\s\)\]>]+`) at the
current position (greedy optional `s`, then a non-empty maximal run). -/
def urlParseAt (cs : List Char) : Option (String × List Char) :=
  match dropLit "http".data cs with
  | none => none
  | some r =>
    match dropLit "s://".data r with
    | some r2 =>
      let (run, rest) := r2.span isURLChar
      if run.isEmpty then none else some (⟨"https://".data ++ run⟩, rest)
    | none =>
      match dropLit "://".data r with
      | none => none
      | some r2 =>
        let (run, rest) := r2.span isURLChar
        if run.isEmpty then none else some (⟨"http://".data ++ run⟩, rest)

/-- `FindAllString` scan for `urlPattern`. -/
def urlScan : Nat → List Char → List String
  | 0, _ => []
  | _ + 1, [] => []
  | fuel + 1, c :: cs =>
    match urlParseAt (c :: cs) with
    | some (u, rest) => u :: urlScan fuel rest
    | none => urlScan fuel cs

/-- `ExtractURLs` from `verify/urls.go`. -/
def ExtractURLs (content : String) : List String :=
  urlScan content.data.length content.data

/-! ### Code-permalink extraction (`verify/codelinks.go`) -/

/-- Character class `[a-f0-9]` of `githubPermalinkPattern`'s commit group. -/
def isHexLower (c : Char) : Bool :=
  c.isDigit || ('a' ≤ c && c ≤ 'f')

/-- `CodeLinkMatch` from `verify/codelinks.go`. -/
structure CodeLinkMatch where
  FullURL : String
  Owner : String
  Repo : String
  CommitSHA : String
  FilePath : String
  StartLine : Nat
  EndLine : Nat
deriving DecidableEq, Repr

/-- The optional `(?:-L(\d+))?` tail of `githubPermalinkPattern`.  Returns
the end line (defaulting to the start line when the group is absent), the
characters the group consumed, and the remainder. -/
def parseLineAnchor (startLine : Nat) (r : List Char) : Nat × List Char × List Char :=
  match dropLit "-L".data r with
  | some r2 =>
    let ds2 := r2.takeWhile Char.isDigit
    let r3 := r2.dropWhile Char.isDigit
    if ds2.isEmpty then (startLine, [], r)
    else (digitsToNat ds2, '-' :: 'L' :: ds2, r3)
  | none => (startLine, [], r)

/-- One attempted match of `githubPermalinkPattern`
(`https://github\.com/([^/]+)/([^/]+)/blob/([a-f0-9]+)/([^#]+)#L(\d+)(?:-L(\d+))?`)
at the current position, building a `CodeLinkMatch` exactly as
`ExtractCodeLinks` does (`m[0]` as `FullURL`, `endLine` defaulting to
`startLine` when the sixth group is empty). -/
def parsePermalinkAt (cs : List Char) : Option (CodeLinkMatch × List Char) :=
  match dropLit "https://github.com/".data cs with
  | none => none
  | some r1 =>
    let owner := r1.takeWhile (fun c => decide (c ≠ '/'))
    let r2 := r1.dropWhile (fun c => decide (c ≠ '/'))
    if owner.isEmpty then none else
    match dropLit "/".data r2 with
    | none => none
    | some r3 =>
      let repo := r3.takeWhile (fun c => decide (c ≠ '/'))
      let r4 := r3.dropWhile (fun c => decide (c ≠ '/'))
      if repo.isEmpty then none else
      match dropLit "/blob/".data r4 with
      | none => none
      | some r5 =>
        let commit := r5.takeWhile isHexLower
        let r6 := r5.dropWhile isHexLower
        if commit.isEmpty then none else
        match dropLit "/".data r6 with
        | none => none
        | some r7 =>
          let path := r7.takeWhile (fun c => decide (c ≠ '#'))
          let r8 := r7.dropWhile (fun c => decide (c ≠ '#'))
          if path.isEmpty then none else
          match dropLit "#L".data r8 with
          | none => none
          | some r9 =>
            let ds := r9.takeWhile Char.isDigit
            let r10 := r9.dropWhile Char.isDigit
            if ds.isEmpty then none else
            let startLine := digitsToNat ds
            let base := "https://github.com/".data ++ owner ++ '/' :: repo ++
              "/blob/".data ++ commit ++ '/' :: path ++ '#' :: 'L' :: ds
            let pa := parseLineAnchor startLine r10
            some ({ FullURL := ⟨base ++ pa.2.1⟩
                    Owner := ⟨owner⟩
                    Repo := ⟨repo⟩
                    CommitSHA := ⟨commit⟩
                    FilePath := ⟨path⟩
                    StartLine := startLine
                    EndLine := pa.1 }, pa.2.2)

/-- `FindAllStringSubmatch` scan for `githubPermalinkPattern`. -/
def scanCodeLinks : Nat → List Char → List CodeLinkMatch
  | 0, _ => []
  | _ + 1, [] => []
  | fuel + 1, c :: cs =>
    match parsePermalinkAt (c :: cs) with
    | some (m, rest) => m :: scanCodeLinks fuel rest
    | none => scanCodeLinks fuel cs

/-- `ExtractCodeLinks` from `verify/codelinks.go`. -/
def ExtractCodeLinks (content : String) : List CodeLinkMatch :=
  scanCodeLinks content.data.length content.data

/-- The anchor part of a matched permalink: the suffix after the last
`'#'` of the matched text.  The owner and repo groups (`[^/]+`) may
contain `'#'`, but the path group (`[^#]+`) and the `#L<start>[-L<end>]`
tail cannot, so the last `'#'` of a match is always the one that starts
its line anchor.  A match carries only a single line anchor exactly when
everything after that `'#'` is `'L'` followed by digits. -/
def anchorTail (l : List Char) : List Char :=
  (l.reverse.takeWhile (fun c => decide (c ≠ '#'))).reverse

/-! ### A small matching engine for the claim / TODO patterns

`verify/claims.go` uses `regexp.MatchString` with `(?i)` patterns built
from word boundaries, literal words, `\s+`/`\s*`/`\d+` classes, optional
single characters or optional groups, and a single level of alternation.
The engine below covers exactly those constructs.  `matchSeqA` and
`matchPat` return every possible (last-consumed-character, remainder)
state, so matching is a pure existence search — equivalent to the
backtracking search the `regexp` package performs for these patterns. -/

/-- ASCII word character, RE2's `\w` as used for `\b`: `[0-9A-Za-z_]`. -/
def isWordChar (c : Char) : Bool :=
  c.isAlphanum || c = '_'

/-- `\b` holds between two characters (either possibly absent) iff
exactly one of them is a word character. -/
def atBoundary (prev next : Option Char) : Bool :=
  (match prev with | some c => isWordChar c | none => false) !=
    (match next with | some c => isWordChar c | none => false)

/-- Character classes appearing in the patterns: `\d` and `\s`. -/
inductive CharCls where
  | digit
  | space
deriving DecidableEq, Repr

def inCls : CharCls → Char → Bool
  | .digit, c => c.isDigit
  | .space, c => isRegexSpace c

/-- Atomic pattern pieces: a (case-insensitively matched) literal
character, a `+` or `*` of a class, an optional single character (`x?`),
and the `\b` assertion. -/
inductive RAtom where
  | lit (c : Char)
  | clsPlus (cl : CharCls)
  | clsStar (cl : CharCls)
  | optCh (c : Char)
  | wordB
deriving Repr

/-- A pattern element: an atom, an alternation of atom sequences, or an
optional atom sequence (`(...)?`). -/
inductive RElem where
  | atom (a : RAtom)
  | alt (alts : List (List RAtom))
  | optSeq (s : List RAtom)
deriving Repr

/-- Case folding for `(?i)` (ASCII suffices for the source's patterns). -/
def foldCase (c : Char) : Char := c.toLower

/-- All ways to consume one or more `cl`-class characters from `cs`
(returning the last consumed character and the remainder for each). -/
def clsSplits (cl : CharCls) : List Char → List (Option Char × List Char)
  | [] => []
  | c :: rest =>
    if inCls cl c then (some c, rest) :: clsSplits cl rest else []

/-- All states reachable by matching one atom. -/
def matchAtomRem (a : RAtom) (prev : Option Char) (cs : List Char) :
    List (Option Char × List Char) :=
  match a with
  | .lit c =>
    match cs with
    | [] => []
    | x :: rest => if foldCase x = foldCase c then [(some x, rest)] else []
  | .clsPlus cl => clsSplits cl cs
  | .clsStar cl => (prev, cs) :: clsSplits cl cs
  | .optCh c =>
    match cs with
    | [] => [(prev, cs)]
    | x :: rest =>
      if foldCase x = foldCase c then [(some x, rest), (prev, cs)] else [(prev, cs)]
  | .wordB => if atBoundary prev cs.head? then [(prev, cs)] else []

/-- All states reachable by matching an atom sequence. -/
def matchSeqA : List RAtom → Option Char → List Char → List (Option Char × List Char)
  | [], prev, cs => [(prev, cs)]
  | a :: rest, prev, cs =>
    (matchAtomRem a prev cs).flatMap (fun s => matchSeqA rest s.1 s.2)

/-- All states reachable by matching one pattern element. -/
def matchElemRem (e : RElem) (prev : Option Char) (cs : List Char) :
    List (Option Char × List Char) :=
  match e with
  | .atom a => matchAtomRem a prev cs
  | .alt alts => alts.flatMap (fun s => matchSeqA s prev cs)
  | .optSeq s => matchSeqA s prev cs ++ [(prev, cs)]

/-- All states reachable by matching a whole pattern. -/
def matchPat : List RElem → Option Char → List Char → List (Option Char × List Char)
  | [], prev, cs => [(prev, cs)]
  | e :: rest, prev, cs =>
    (matchElemRem e prev cs).flatMap (fun s => matchPat rest s.1 s.2)

/-- Does the pattern match starting exactly here? -/
def matchHere (pat : List RElem) (prev : Option Char) (cs : List Char) : Bool :=
  !(matchPat pat prev cs).isEmpty

/-- Does the pattern match anywhere at or after this position
(`regexp.MatchString`)? -/
def matchFrom (pat : List RElem) (prev : Option Char) (cs : List Char) : Bool :=
  matchHere pat prev cs ||
    match cs with
    | [] => false
    | c :: rest => matchFrom pat (some c) rest

/-- `MatchString` for an unanchored pattern. -/
def reMatch (pat : List RElem) (s : String) : Bool :=
  matchFrom pat none s.data

/-- Literal word as an atom sequence. -/
def lits (s : String) : List RAtom :=
  s.data.map RAtom.lit

/-- Literal word as an element sequence. -/
def litsE (s : String) : List RElem :=
  s.data.map (fun c => RElem.atom (RAtom.lit c))

/-! ### Claim-detection heuristics (`verify/claims.go`) -/

/-- `(?i)\b(\d+%|\d+x|faster|slower|better|worse)\s+(than|compared to)` -/
def mustCitePattern1 : List RElem :=
  [.atom .wordB,
   .alt [[.clsPlus .digit, .lit '%'], [.clsPlus .digit, .lit 'x'],
         lits "faster", lits "slower", lits "better", lits "worse"],
   .atom (.clsPlus .space),
   .alt [lits "than", lits "compared to"]]

/-- `(?i)\b(discovered|introduced|invented|developed)\s+by` -/
def mustCitePattern2 : List RElem :=
  [.atom .wordB,
   .alt [lits "discovered", lits "introduced", lits "invented", lits "developed"],
   .atom (.clsPlus .space)] ++ litsE "by"

/-- `(?i)\b(as shown|as described|according to|as demonstrated)\s+(in|by)` -/
def mustCitePattern3 : List RElem :=
  [.atom .wordB,
   .alt [lits "as shown", lits "as described", lits "according to", lits "as demonstrated"],
   .atom (.clsPlus .space),
   .alt [lits "in", lits "by"]]

/-- `(?i)\bstudies\s+(have\s+)?(shown|demonstrated|found|revealed)` -/
def mustCitePattern4 : List RElem :=
  [.atom .wordB] ++ litsE "studies" ++
  [.atom (.clsPlus .space),
   .optSeq (lits "have" ++ [.clsPlus .space]),
   .alt [lits "shown", lits "demonstrated", lits "found", lits "revealed"]]

/-- `(?i)\b(causes?|leads?\s+to|results?\s+in)\b` -/
def shouldCitePattern1 : List RElem :=
  [.atom .wordB,
   .alt [lits "cause" ++ [.optCh 's'],
         lits "lead" ++ [.optCh 's', .clsPlus .space] ++ lits "to",
         lits "result" ++ [.optCh 's', .clsPlus .space] ++ lits "in"],
   .atom .wordB]

/-- `(?i)\b(O\(n|O\(log|complexity\s+of)` -/
def shouldCitePattern2 : List RElem :=
  [.atom .wordB,
   .alt [lits "O(n", lits "O(log", lits "complexity" ++ [.clsPlus .space] ++ lits "of"]]

/-- `(?i)\b(historically|traditionally|originally)\b` -/
def shouldCitePattern3 : List RElem :=
  [.atom .wordB,
   .alt [lits "historically", lits "traditionally", lits "originally"],
   .atom .wordB]

/-- `(?i)\b(is\s+defined\s+as|refers?\s+to|means?)\b` -/
def exemptPattern1 : List RElem :=
  [.atom .wordB,
   .alt [lits "is" ++ [.clsPlus .space] ++ lits "defined" ++ [.clsPlus .space] ++ lits "as",
         lits "refer" ++ [.optCh 's', .clsPlus .space] ++ lits "to",
         lits "mean" ++ [.optCh 's']],
   .atom .wordB]

/-- `(?i)\b(for\s+example|e\.g\.|such\s+as|i\.e\.)\b` -/
def exemptPattern2 : List RElem :=
  [.atom .wordB,
   .alt [lits "for" ++ [.clsPlus .space] ++ lits "example",
         lits "e.g.",
         lits "such" ++ [.clsPlus .space] ++ lits "as",
         lits "i.e."],
   .atom .wordB]

/-- `(?i)\b(in\s+this\s+(section|chapter)|we\s+now|let\s+us)\b` (the inner
`(section|chapter)` group distributed over the enclosing alternative). -/
def exemptPattern3 : List RElem :=
  [.atom .wordB,
   .alt [lits "in" ++ [.clsPlus .space] ++ lits "this" ++ [.clsPlus .space] ++ lits "section",
         lits "in" ++ [.clsPlus .space] ++ lits "this" ++ [.clsPlus .space] ++ lits "chapter",
         lits "we" ++ [.clsPlus .space] ++ lits "now",
         lits "let" ++ [.clsPlus .space] ++ lits "us"],
   .atom .wordB]

/-- The fourth exemption pattern, `^```​` (anchored fenced-code marker). -/
def matchesCodeFence (s : String) : Bool :=
  "```".data.isPrefixOf s.data

/-- `mustCitePatterns` from `verify/claims.go`. -/
def mustCitePatterns : List (String → Bool) :=
  [reMatch mustCitePattern1, reMatch mustCitePattern2,
   reMatch mustCitePattern3, reMatch mustCitePattern4]

/-- `shouldCitePatterns` from `verify/claims.go`. -/
def shouldCitePatterns : List (String → Bool) :=
  [reMatch shouldCitePattern1, reMatch shouldCitePattern2, reMatch shouldCitePattern3]

/-- `exemptPatterns` from `verify/claims.go`. -/
def exemptPatterns : List (String → Bool) :=
  [reMatch exemptPattern1, reMatch exemptPattern2, reMatch exemptPattern3,
   matchesCodeFence]

/-- `AnalyzeClaimWithHeuristics` from `verify/claims.go`: exemption
patterns first, then must-cite, then should-cite, else a low-confidence
non-claim. -/
def AnalyzeClaimWithHeuristics (sentence : String) : Bool × String × String :=
  let sentence := trimGo sentence
  if exemptPatterns.any (fun p => p sentence) then
    (false, "high", "Sentence is a definition, example, or transitional prose")
  else if mustCitePatterns.any (fun p => p sentence) then
    (true, "high", "Sentence contains comparison, attribution, or cites prior work")
  else if shouldCitePatterns.any (fun p => p sentence) then
    (true, "medium", "Sentence contains causal claim or complexity statement")
  else
    (false, "low", "No citation-requiring patterns detected")

/-! ### TODO markers (`verify/claims.go`) -/

/-- `todoMarkerPattern`: `(?i)\b(TODO|FIXME|XXX|HACK)\b:?\s*`. -/
def todoMarkerPat : List RElem :=
  [.atom .wordB,
   .alt [lits "todo", lits "fixme", lits "xxx", lits "hack"],
   .atom .wordB, .atom (.optCh ':'), .atom (.clsStar .space)]

/-- Pick the match state with the shortest remainder, i.e. the longest
match.  For `todoMarkerPat` the greedy leftmost-first match the `regexp`
package produces is exactly the longest one (the alternatives are
mutually exclusive and `:?`/`\s*` are greedy). -/
def pickLongest (cands : List (Option Char × List Char)) :
    Option (Option Char × List Char) :=
  cands.foldl
    (fun best s =>
      match best with
      | none => some s
      | some b => if s.2.length < b.2.length then some s else best)
    none

/-- `FindAllString` scan for `todoMarkerPattern`: leftmost matches, each
greedy, resuming after each match. -/
def todoScanGo : Nat → Option Char → List Char → List String
  | 0, _, _ => []
  | _ + 1, _, [] => []
  | fuel + 1, prev, c :: cs =>
    match pickLongest (matchPat todoMarkerPat prev (c :: cs)) with
    | some (p, rest) =>
      let n := (c :: cs).length - rest.length
      if n = 0 then todoScanGo fuel (some c) cs
      else (⟨(c :: cs).take n⟩ : String) :: todoScanGo fuel p rest
    | none => todoScanGo fuel (some c) cs

/-- `ExtractTodoMarkers` from `verify/claims.go`. -/
def ExtractTodoMarkers (content : String) : List String :=
  todoScanGo content.data.length none content.data

/-! ### Verifiers

Each verifier consults exactly one external oracle; the oracles are
modelled as records of what the external world would answer.  `uuid.New`
and `time.Now` become the `checkID` / `now` parameters.  Go's `%q` verb
is modelled as plain quoting (none of the strings involved need
escaping). -/

/-- `fmt`'s `%q` on the strings this pipeline formats. -/
def goQ (s : String) : String :=
  "\"" ++ s ++ "\""

/-- Go string slicing `s[:n]`: panics (`none`) when the string is shorter
than `n`.  (Go slices bytes; every sliced string here is ASCII, where
bytes and characters coincide.) -/
def goStringSlice (s : String) (n : Nat) : Option String :=
  if n ≤ s.data.length then some ⟨s.data.take n⟩ else none

/-! #### Citation verifier (`verify/citations.go`) -/

/-- What `exec.Command("bip", "s2", "get", paperID).Run()` does. -/
inductive BipRunOutcome where
  | success
  | failure (stderrText : String)

/-- The knowledge-graph oracle: whether the `bip` CLI is on the path, and
what running it on a given paper id produces. -/
structure BipOracle where
  available : Bool
  run : String → BipRunOutcome

/-- `lookupPaperInBipartite` from `verify/citations.go`. -/
def lookupPaperInBipartite (o : BipOracle) (paperID : String) : Except String Bool :=
  if o.available then
    match o.run paperID with
    | .success => .ok true
    | .failure st =>
      if containsStr st "not found" || containsStr st "no such" then .ok false
      else .error ("bip lookup failed: " ++ st)
  else
    .error "bip CLI not found: exec: \"bip\": executable file not found in $PATH"

/-- `VerifyCitation` from `verify/citations.go`. -/
def VerifyCitation (o : BipOracle) (paperID file : String) (line : Nat)
    (text checkID : String) (now : Nat) : VerificationResult :=
  let target : VerificationTarget := ⟨file, line, text⟩
  match lookupPaperInBipartite o paperID with
  | .error e =>
    { checkID := checkID, checkType := .citation, target := target
      status := .fail
      message := "Failed to verify paper ID " ++ goQ paperID ++ ": " ++ e
      details := { citation := some ⟨paperID, false⟩ }
      checkedAt := now }
  | .ok resolved =>
    { checkID := checkID, checkType := .citation, target := target
      status := if resolved then .pass else .fail
      message :=
        if resolved then "Paper ID " ++ goQ paperID ++ " resolved successfully"
        else "Paper ID " ++ goQ paperID ++ " not found in bipartite"
      details := { citation := some ⟨paperID, resolved⟩ }
      checkedAt := now }

/-! #### URL verifier (`verify/urls.go`) -/

/-- One URL probe: whether `http.NewRequestWithContext` fails, and what
the HEAD and (fallback) GET attempts produce — an HTTP status code or a
transport error. -/
structure URLProbe where
  buildError : Option String
  head : Except String Int
  get : Except String Int

/-- `VerifyURL` from `verify/urls.go`: request-build failure → fail;
transport failure on HEAD retried once with GET, both failing → fail;
otherwise a response, classified 200–399 pass / 400–499 fail /
anything else warn. -/
def VerifyURL (probe : URLProbe) (url file : String) (line : Nat)
    (text checkID : String) (now : Nat) : VerificationResult :=
  let target : VerificationTarget := ⟨file, line, text⟩
  match probe.buildError with
  | some e =>
    { checkID := checkID, checkType := .url, target := target
      status := .fail
      message := "Invalid URL " ++ goQ url ++ ": " ++ e
      details := { url := some ⟨url, none, some e⟩ }
      checkedAt := now }
  | none =>
    let attempt : Except String Int :=
      match probe.head with
      | .ok sc => .ok sc
      | .error _ => probe.get
    match attempt with
    | .error e =>
      { checkID := checkID, checkType := .url, target := target
        status := .fail
        message := "URL " ++ goQ url ++ " is not accessible: " ++ e
        details := { url := some ⟨url, none, some e⟩ }
        checkedAt := now }
    | .ok statusCode =>
      { checkID := checkID, checkType := .url, target := target
        status :=
          if 200 ≤ statusCode ∧ statusCode < 400 then .pass
          else if 400 ≤ statusCode ∧ statusCode < 500 then .fail
          else .warn
        message :=
          if 200 ≤ statusCode ∧ statusCode < 400 then
            "URL " ++ goQ url ++ " is accessible (HTTP " ++ toString statusCode ++ ")"
          else if 400 ≤ statusCode ∧ statusCode < 500 then
            "URL " ++ goQ url ++ " returned client error (HTTP " ++ toString statusCode ++ ")"
          else
            "URL " ++ goQ url ++ " returned unexpected status (HTTP " ++ toString statusCode ++ ")"
        details := { url := some ⟨url, some statusCode, none⟩ }
        checkedAt := now }

/-! #### Code-permalink verifier

The repository carries two variants of this verifier: the refined one
(the `estimatedCharsPerLine` file), which flags the size-derived line
count as estimated and downgrades range validation to `warn`, and a
superseded strict one (`verify/codelinks.go`), which treats the estimate
as authoritative.  Both are embedded; the spec designates the refined
variant as the intended behaviour. -/

/-- `estimatedCharsPerLine` constant of the refined variant. -/
def estimatedCharsPerLine : Int := 30

/-- What `gh api repos/{owner}/{repo}/contents/{path}?ref={sha}`
produces: a run failure with some stderr text, output that fails to
parse as JSON, or a parsed `{size: ...}` response. -/
inductive GhApiOutcome where
  | runFailure (stderrText : String)
  | badOutput (errText : String)
  | sized (size : Int)

/-- The source-hosting oracle: whether the `gh` CLI is on the path, and
what the file-metadata API answers for given (owner, repo, sha, path). -/
structure GhOracle where
  available : Bool
  api : String → String → String → String → GhApiOutcome

/-- `checkFileExistsAtCommit` (refined variant): returns
(exists, estimatedLineCount, isEstimated); the line count is always the
size estimate and always flagged estimated on success. -/
def checkFileExistsAtCommit (o : GhOracle) (owner repo sha filePath : String) :
    Except String (Bool × Int × Bool) :=
  match o.api owner repo sha filePath with
  | .runFailure st =>
    if containsStr st "404" || containsStr st "Not Found" then .ok (false, 0, false)
    else .error ("gh api error: " ++ st)
  | .badOutput e => .error ("parse response: " ++ e)
  | .sized size =>
    let estimatedLines := size / estimatedCharsPerLine
    let estimatedLines := if estimatedLines < 1 then 1 else estimatedLines
    .ok (true, estimatedLines, true)

/-- `checkFileAtCommit` (strict variant in `verify/codelinks.go`):
returns (exists, lineCount) with the same size/30 estimate but no
estimated flag. -/
def checkFileAtCommit (o : GhOracle) (owner repo sha filePath : String) :
    Except String (Bool × Int) :=
  match o.api owner repo sha filePath with
  | .runFailure st =>
    if containsStr st "404" || containsStr st "Not Found" then .ok (false, 0)
    else .error ("gh api error: " ++ st)
  | .badOutput e => .error ("parse response: " ++ e)
  | .sized size =>
    let estimatedLines := size / 30
    let estimatedLines := if estimatedLines < 1 then 1 else estimatedLines
    .ok (true, estimatedLines)

/-- `VerifyCodeLink` (refined variant).  The `link.CommitSHA[:8]` slice
in the file-missing branch is Go string slicing and panics (`none`) when
the commit identifier has fewer than 8 characters. -/
def VerifyCodeLink (o : GhOracle) (link : CodeLinkMatch) (file : String)
    (line : Nat) (text checkID : String) (now : Nat) : Option VerificationResult :=
  let target : VerificationTarget := ⟨file, line, text⟩
  if !o.available then
    some { checkID := checkID, checkType := .codeLink, target := target
           status := .warn
           message := "Cannot verify code link " ++ goQ link.FullURL ++ ": gh CLI not found"
           details := { codeLink := some ⟨link.FullURL, false, false⟩ }
           checkedAt := now }
  else
    match checkFileExistsAtCommit o link.Owner link.Repo link.CommitSHA link.FilePath with
    | .error e =>
      some { checkID := checkID, checkType := .codeLink, target := target
             status := .fail
             message := "Failed to verify code link " ++ goQ link.FullURL ++ ": " ++ e
             details := { codeLink := some ⟨link.FullURL, false, false⟩ }
             checkedAt := now }
    | .ok (fileExists, estimatedLineCount, isEstimated) =>
      let st :=
        if fileExists then
          if isEstimated then (false, true)
          else if estimatedLineCount > 0 then
            (decide ((link.StartLine : Int) ≤ estimatedLineCount) &&
               decide ((link.EndLine : Int) ≤ estimatedLineCount), false)
          else (false, false)
        else (false, false)
      let lineRangeValid := st.1
      let lineRangeSkipped := st.2
      if !fileExists then
        match goStringSlice link.CommitSHA 8 with
        | none => none
        | some sha8 =>
          some { checkID := checkID, checkType := .codeLink, target := target
                 status := .fail
                 message := "File " ++ goQ link.FilePath ++ " does not exist at commit " ++ sha8
                 details := { codeLink := some ⟨link.FullURL, fileExists, lineRangeValid⟩ }
                 checkedAt := now }
      else if lineRangeSkipped then
        some { checkID := checkID, checkType := .codeLink, target := target
               status := .warn
               message := "Code link " ++ goQ link.FullURL ++ ": file exists but line range L" ++
                 toString link.StartLine ++ "-L" ++ toString link.EndLine ++
                 " could not be verified (line count estimated)"
               -- the source sets lineRangeValid = true here ("couldn't check")
               details := { codeLink := some ⟨link.FullURL, fileExists, true⟩ }
               checkedAt := now }
      else if !lineRangeValid then
        some { checkID := checkID, checkType := .codeLink, target := target
               status := .fail
               message := "Line range L" ++ toString link.StartLine ++ "-L" ++
                 toString link.EndLine ++ " exceeds file length (" ++
                 toString estimatedLineCount ++ " lines)"
               details := { codeLink := some ⟨link.FullURL, fileExists, lineRangeValid⟩ }
               checkedAt := now }
      else
        some { checkID := checkID, checkType := .codeLink, target := target
               status := .pass
               message := "Code link " ++ goQ link.FullURL ++ " is valid"
               details := { codeLink := some ⟨link.FullURL, fileExists, lineRangeValid⟩ }
               checkedAt := now }

/-- `VerifyCodeLink` (superseded strict variant, `verify/codelinks.go`):
compares the requested range against the size-derived line count and
fails on mismatch.  Shares the panicking `CommitSHA[:8]` slice. -/
def VerifyCodeLinkStrict (o : GhOracle) (link : CodeLinkMatch) (file : String)
    (line : Nat) (text checkID : String) (now : Nat) : Option VerificationResult :=
  let target : VerificationTarget := ⟨file, line, text⟩
  if !o.available then
    some { checkID := checkID, checkType := .codeLink, target := target
           status := .warn
           message := "Cannot verify code link " ++ goQ link.FullURL ++ ": gh CLI not found"
           details := { codeLink := some ⟨link.FullURL, false, false⟩ }
           checkedAt := now }
  else
    match checkFileAtCommit o link.Owner link.Repo link.CommitSHA link.FilePath with
    | .error e =>
      some { checkID := checkID, checkType := .codeLink, target := target
             status := .fail
             message := "Failed to verify code link " ++ goQ link.FullURL ++ ": " ++ e
             details := { codeLink := some ⟨link.FullURL, false, false⟩ }
             checkedAt := now }
    | .ok (fileExists, lineCount) =>
      let lineRangeValid :=
        fileExists && lineCount > 0 &&
          (decide ((link.StartLine : Int) ≤ lineCount) &&
            decide ((link.EndLine : Int) ≤ lineCount))
      if fileExists && lineRangeValid then
        some { checkID := checkID, checkType := .codeLink, target := target
               status := .pass
               message := "Code link " ++ goQ link.FullURL ++ " is valid"
               details := { codeLink := some ⟨link.FullURL, fileExists, lineRangeValid⟩ }
               checkedAt := now }
      else if !fileExists then
        match goStringSlice link.CommitSHA 8 with
        | none => none
        | some sha8 =>
          some { checkID := checkID, checkType := .codeLink, target := target
                 status := .fail
                 message := "File " ++ goQ link.FilePath ++ " does not exist at commit " ++ sha8
                 details := { codeLink := some ⟨link.FullURL, fileExists, lineRangeValid⟩ }
                 checkedAt := now }
      else
        some { checkID := checkID, checkType := .codeLink, target := target
               status := .fail
               message := "Line range L" ++ toString link.StartLine ++ "-L" ++
                 toString link.EndLine ++ " exceeds file length (" ++
                 toString lineCount ++ " lines)"
               details := { codeLink := some ⟨link.FullURL, fileExists, lineRangeValid⟩ }
               checkedAt := now }

/-! #### TODO verifier (`verify/claims.go`) -/

/-- `VerifyTodoMarker`: unconditionally `fail`. -/
def VerifyTodoMarker (_marker file : String) (line : Nat)
    (text checkID : String) (now : Nat) : VerificationResult :=
  { checkID := checkID, checkType := .todoMarker
    target := ⟨file, line, text⟩
    status := .fail
    message := "TODO/FIXME marker found - remove before publishing"
    checkedAt := now }

/-! #### Claim verifier (`verify/claims.go`, `llm/client.go`) -/

/-- `ClaimAnalysisResult` from `llm/client.go`. -/
structure ClaimAnalysisResult where
  needsCitation : Bool
  confidence : String
  reason : String
  suggestedAction : String

/-- The two providers `llm.NewClient` can select. -/
inductive LLMProvider where
  | claude
  | ollama

/-- The text-completion oracle: which provider CLIs are on the path and
what a full `AnalyzeClaim` round trip (prompt, completion, JSON parse)
produces for a given sentence. -/
structure LLMOracle where
  claudeAvailable : Bool
  ollamaAvailable : Bool
  analyze : LLMProvider → String → Except String ClaimAnalysisResult

/-- `llm.NewClient`: prefers the claude CLI, falls back to ollama. -/
def llmNewClient (o : LLMOracle) : Except String LLMProvider :=
  if o.claudeAvailable then .ok .claude
  else if o.ollamaAvailable then .ok .ollama
  else .error "no LLM provider available: install claude CLI or ollama"

/-- `llm.IsAvailable`. -/
def llmIsAvailable (o : LLMOracle) : Bool :=
  match llmNewClient o with
  | .ok _ => true
  | .error _ => false

/-- `VerifyClaim` from `verify/claims.go`: a sentence with a citation
passes outright; otherwise the heuristics run, the LLM is consulted only
on a low-confidence heuristic result (and only when enabled and
available, with errors swallowed), and `needs-citation` maps to
fail/pass. -/
def VerifyClaim (o : LLMOracle) (sentence file : String) (line : Nat)
    (hasCitation useLLM : Bool) (checkID : String) (now : Nat) : VerificationResult :=
  let target : VerificationTarget := ⟨file, line, sentence⟩
  if hasCitation then
    { checkID := checkID, checkType := .claim, target := target
      status := .pass
      message := "Claim has citation"
      details := { claim := some ⟨sentence, "high", "no action needed"⟩ }
      checkedAt := now }
  else
    let h := AnalyzeClaimWithHeuristics sentence
    let r :=
      if h.2.1 = "low" && useLLM && llmIsAvailable o then
        match llmNewClient o with
        | .ok provider =>
          match o.analyze provider sentence with
          | .ok a => (a.needsCitation, a.confidence, a.reason)
          | .error _ => h
        | .error _ => h
      else h
    if r.1 then
      { checkID := checkID, checkType := .claim, target := target
        status := .fail
        message := "Uncited factual claim detected"
        details := { claim := some ⟨sentence, r.2.1, "add citation"⟩ }
        checkedAt := now }
    else
      { checkID := checkID, checkType := .claim, target := target
        status := .pass
        message := r.2.2
        details := { claim := some ⟨sentence, r.2.1, "no action needed"⟩ }
        checkedAt := now }

/-! ### File orchestrator (`verify/verify.go`) -/

/-- `Options` from `verify/verify.go`. -/
structure Options where
  UseLLM : Bool

/-- `DefaultOptions`. -/
def DefaultOptions : Options := ⟨true⟩

/-- `strings.HasPrefix`. -/
def goHasPre (s pre : String) : Bool :=
  pre.data.isPrefixOf s.data

/-- `citationPattern.MatchString`. -/
def citationMatchString (s : String) : Bool :=
  !(rawCitationTokens s).isEmpty

/-- The `hasCitation` expression of `VerifyFile`'s claim loop:
the sentence matches the citation pattern, or (after two always-true
bounds guards, `lineNum` being the sentence's own 1-based line number)
`lines[lineNum-1]` — the line containing the sentence — does. -/
def hasCitationForSentence (sentence : String) (lineNum : Nat) (lines : List String) : Bool :=
  citationMatchString sentence ||
    (decide (lineNum > 0) && decide (lineNum ≤ lines.length) &&
      citationMatchString (lines.getD (lineNum - 1) ""))

/-- The external world one `VerifyFile` run sees, plus the `uuid.New` /
`time.Now` suppliers (`newCheckID` is indexed by how many results have
been accumulated when the id is drawn). -/
structure FileEnv where
  bip : BipOracle
  urlProbe : String → URLProbe
  gh : GhOracle
  llm : LLMOracle
  newCheckID : Nat → String
  now : Nat

/-- The TODO scan of `VerifyFile`'s line loop. -/
def todoLineChecks (env : FileEnv) (filePath : String) (lines : List String)
    (acc : List VerificationResult) : List VerificationResult :=
  (List.range lines.length).foldl
    (fun acc i =>
      let line := lines.getD i ""
      if reMatch todoMarkerPat line then
        (ExtractTodoMarkers line).foldl
          (fun acc marker =>
            acc ++ [VerifyTodoMarker marker filePath (i + 1) line
              (env.newCheckID acc.length) env.now])
          acc
      else acc)
    acc

/-- The citation block of `VerifyFile`. -/
def citationChecks (env : FileEnv) (filePath content : String) (lines : List String)
    (acc : List VerificationResult) : List VerificationResult :=
  (ExtractCitations content).foldl
    (fun acc citation =>
      let lineNum := findLineNumber lines ("@paper:" ++ citation)
      let lineText :=
        if lineNum > 0 ∧ lineNum ≤ lines.length then lines.getD (lineNum - 1) "" else ""
      acc ++ [VerifyCitation env.bip citation filePath lineNum lineText
        (env.newCheckID acc.length) env.now])
    acc

/-- The URL block of `VerifyFile` (GitHub blob URLs are skipped — they
are handled by the code-link checker). -/
def urlChecks (env : FileEnv) (filePath content : String) (lines : List String)
    (acc : List VerificationResult) : List VerificationResult :=
  (ExtractURLs content).foldl
    (fun acc url =>
      if containsStr url "github.com" && containsStr url "/blob/" then acc
      else
        let lineNum := findLineNumber lines url
        let lineText :=
          if lineNum > 0 ∧ lineNum ≤ lines.length then lines.getD (lineNum - 1) "" else ""
        acc ++ [VerifyURL (env.urlProbe url) url filePath lineNum lineText
          (env.newCheckID acc.length) env.now])
    acc

/-- The code-link block of `VerifyFile`; `VerifyCodeLink` can panic, so
the whole block can. -/
def codeLinkChecks (env : FileEnv) (filePath content : String) (lines : List String)
    (acc : List VerificationResult) : Option (List VerificationResult) :=
  (ExtractCodeLinks content).foldlM
    (fun acc link =>
      let lineNum := findLineNumber lines link.FullURL
      let lineText :=
        if lineNum > 0 ∧ lineNum ≤ lines.length then lines.getD (lineNum - 1) "" else ""
      (VerifyCodeLink env.gh link filePath lineNum lineText
        (env.newCheckID acc.length) env.now).map (fun r => acc ++ [r]))
    acc

/-- The per-sentence claim loop of `VerifyFile`: frontmatter, fences,
headers and blank lines are skipped, short fragments are skipped, and
only failing claim checks are appended ("to avoid noise"). -/
def claimChecks (env : FileEnv) (opts : Options) (filePath : String)
    (lines : List String) (acc : List VerificationResult) : List VerificationResult :=
  (List.range lines.length).foldl
    (fun acc i =>
      let lineNum := i + 1
      let line := lines.getD i ""
      if goHasPre line "---" || goHasPre line "```" || goHasPre line "#" ||
          (trimGo line == "") then acc
      else
        (splitSentences line).foldl
          (fun acc sentence =>
            let sentence := trimGo sentence
            if goLen sentence < 20 then acc
            else
              let hasCitation := hasCitationForSentence sentence lineNum lines
              let result := VerifyClaim env.llm sentence filePath lineNum hasCitation
                opts.UseLLM (env.newCheckID acc.length) env.now
              if result.status = .fail then acc ++ [result] else acc)
          acc)
    acc

/-- `VerifyFile` from `verify/verify.go`, as a function of the already
read file content (the `os.ReadFile` error path is outside this model):
TODO markers per line, then de-duplicated citations, then URLs (skipping
GitHub blob URLs), then code links (whose verifier can panic, hence the
`Option`), then per-sentence claim checks of which only failing results
are appended. -/
def VerifyFile (env : FileEnv) (opts : Options) (filePath content : String) :
    Option (List VerificationResult) :=
  let lines := goLines content
  let r1 := todoLineChecks env filePath lines []
  let r2 := citationChecks env filePath content lines r1
  let r3 := urlChecks env filePath content lines r2
  match codeLinkChecks env filePath content lines r3 with
  | none => none
  | some r4 => some (claimChecks env opts filePath lines r4)

end Scribe

namespace Scribe

theorem countStatus_append (st : CheckStatus) (l : List VerificationResult)
    (r : VerificationResult) :
    countStatus st (l ++ [r]) = countStatus st l + (if r.status = st then 1 else 0) := by
  unfold countStatus
  rw [List.filter_append, List.length_append]
  by_cases h : r.status = st <;> simp [h]

theorem buildSummary_spec (results : List VerificationResult) :
    buildSummary results =
      { totalChecks := results.length
        passed := countStatus .pass results
        failed := countStatus .fail results
        warnings := countStatus .warn results } := by
  suffices h : ∀ (l : List VerificationResult) (s : ReportSummary),
      l.foldl
        (fun s r =>
          match r.status with
          | .pass => { s with passed := s.passed + 1 }
          | .fail => { s with failed := s.failed + 1 }
          | .warn => { s with warnings := s.warnings + 1 })
        s =
      { s with passed := s.passed + countStatus .pass l,
               failed := s.failed + countStatus .fail l,
               warnings := s.warnings + countStatus .warn l } by
    rw [buildSummary, h]
    simp
  intro l
  induction l with
  | nil => intro s; simp [countStatus]
  | cons r l ih =>
    intro s
    rw [List.foldl_cons, ih]
    have hp : countStatus .pass (r :: l) =
        (if r.status = .pass then 1 else 0) + countStatus .pass l := by
      unfold countStatus
      by_cases h : r.status = .pass <;> (simp [List.filter_cons, h]; try omega)
    have hf : countStatus .fail (r :: l) =
        (if r.status = .fail then 1 else 0) + countStatus .fail l := by
      unfold countStatus
      by_cases h : r.status = .fail <;> (simp [List.filter_cons, h]; try omega)
    have hw : countStatus .warn (r :: l) =
        (if r.status = .warn then 1 else 0) + countStatus .warn l := by
      unfold countStatus
      by_cases h : r.status = .warn <;> (simp [List.filter_cons, h]; try omega)
    rw [hp, hf, hw]
    cases h : r.status <;> simp [h, ReportSummary.mk.injEq] <;> omega

theorem countStatus_perm {l l' : List VerificationResult} (h : l.Perm l')
    (st : CheckStatus) : countStatus st l = countStatus st l' := by
  unfold countStatus
  exact (h.filter _).length_eq

end Scribe

namespace Scribe

/-- C1: for every sequence of verification results added to a
`ReportBuilder`, the report produced by `Build` has exit code 1 if the
number of results with status `fail` is positive and 0 otherwise; and the
exit code depends on nothing but the fail count (in particular the number
of `warn` results never affects it). -/
theorem C1_exit_code_law :
    (∀ (b : ReportBuilder) (reportID : String) (now : Nat),
      (b.Build reportID now).exitCode =
        if 0 < countStatus .fail b.results then 1 else 0) ∧
    (∀ (b b' : ReportBuilder) (id id' : String) (now now' : Nat),
      countStatus .fail b.results = countStatus .fail b'.results →
      (b.Build id now).exitCode = (b'.Build id' now').exitCode) := by
  have key : ∀ (b : ReportBuilder) (reportID : String) (now : Nat),
      (b.Build reportID now).exitCode =
        if 0 < countStatus .fail b.results then 1 else 0 := by
    intro b reportID now
    show (if (buildSummary b.results).failed > 0 then 1 else 0) =
      if 0 < countStatus .fail b.results then 1 else 0
    rw [buildSummary_spec]
  refine ⟨key, ?_⟩
  intro b b' id id' now now' h
  rw [key, key, h]

/-- Witness for C1: two concrete builders, one holding a single `warn`
result and one empty, have the same fail count and hence the same
exit code. -/
theorem C1_exit_code_law_witness :
    countStatus .fail (ReportBuilder.results ⟨["a.qmd"],
        [⟨"1", .url, ⟨"a.qmd", 1, "t"⟩, .warn, "m", {}, 0⟩]⟩) =
      countStatus .fail (ReportBuilder.results ⟨[], []⟩) ∧
    (ReportBuilder.Build ⟨["a.qmd"],
        [⟨"1", .url, ⟨"a.qmd", 1, "t"⟩, .warn, "m", {}, 0⟩]⟩ "r" 3).exitCode =
      (ReportBuilder.Build ⟨[], []⟩ "r2" 7).exitCode :=
  ⟨by decide, C1_exit_code_law.2 _ _ _ _ _ _ (by decide)⟩

/-- C8: for every report produced by `ReportBuilder.Build`, the summary
counts equal the partition of the result list by status (`passed` /
`failed` / `warnings` count the results with that status and
`totalChecks` is the length of the result list), and the summary is
unchanged under permuting the order in which the results were added. -/
theorem C8_summary_partition :
    (∀ (b : ReportBuilder) (reportID : String) (now : Nat),
      (b.Build reportID now).summary.passed = countStatus .pass b.results ∧
      (b.Build reportID now).summary.failed = countStatus .fail b.results ∧
      (b.Build reportID now).summary.warnings = countStatus .warn b.results ∧
      (b.Build reportID now).summary.totalChecks = b.results.length) ∧
    (∀ (fs fs' : List String) (l l' : List VerificationResult)
       (id id' : String) (now now' : Nat),
      l.Perm l' →
      (ReportBuilder.Build ⟨fs, l⟩ id now).summary =
        (ReportBuilder.Build ⟨fs', l'⟩ id' now').summary) := by
  have key : ∀ (b : ReportBuilder) (reportID : String) (now : Nat),
      (b.Build reportID now).summary = buildSummary b.results := fun _ _ _ => rfl
  constructor
  · intro b reportID now
    rw [key, buildSummary_spec]
    exact ⟨rfl, rfl, rfl, rfl⟩
  · intro fs fs' l l' id id' now now' h
    rw [key, key]
    show buildSummary l = buildSummary l'
    rw [buildSummary_spec, buildSummary_spec, h.length_eq,
      countStatus_perm h, countStatus_perm h, countStatus_perm h]

/-- Witness for C8: adding the same two concrete results in either order
yields the same summary. -/
theorem C8_summary_partition_witness :
    ([⟨"1", .citation, ⟨"a", 1, "x"⟩, .pass, "ok", {}, 0⟩,
      ⟨"2", .url, ⟨"a", 2, "y"⟩, .fail, "bad", {}, 0⟩] :
        List VerificationResult).Perm
      [⟨"2", .url, ⟨"a", 2, "y"⟩, .fail, "bad", {}, 0⟩,
       ⟨"1", .citation, ⟨"a", 1, "x"⟩, .pass, "ok", {}, 0⟩] ∧
    (ReportBuilder.Build ⟨["a"],
        [⟨"1", .citation, ⟨"a", 1, "x"⟩, .pass, "ok", {}, 0⟩,
         ⟨"2", .url, ⟨"a", 2, "y"⟩, .fail, "bad", {}, 0⟩]⟩ "r" 0).summary =
      (ReportBuilder.Build ⟨[],
        [⟨"2", .url, ⟨"a", 2, "y"⟩, .fail, "bad", {}, 0⟩,
         ⟨"1", .citation, ⟨"a", 1, "x"⟩, .pass, "ok", {}, 0⟩]⟩ "s" 9).summary :=
  ⟨by decide, C8_summary_partition.2 _ _ _ _ _ _ _ _ (by decide)⟩

end Scribe

namespace Scribe

theorem containsChars_append_right (a b sub : List Char)
    (h : containsChars b sub = true) : containsChars (a ++ b) sub = true := by
  induction a with
  | nil => simpa using h
  | cons c t ih => simp [containsChars, ih]

/-- C5: for every URL probe that obtains an HTTP response (from the HEAD
attempt, or from the GET retry after a HEAD transport failure), the
outcome of `VerifyURL` is pass for status codes 200–399, fail for
400–499, and warn for anything else; for a 404 the message embeds
"404". -/
theorem C5_url_status_classification
    (probe : URLProbe) (url file : String) (line : Nat)
    (text checkID : String) (now : Nat) (sc : Int)
    (hbuild : probe.buildError = none)
    (hresp : probe.head = .ok sc ∨ ((∃ e, probe.head = .error e) ∧ probe.get = .ok sc)) :
    ((VerifyURL probe url file line text checkID now).status =
      (if 200 ≤ sc ∧ sc < 400 then .pass
       else if 400 ≤ sc ∧ sc < 500 then .fail
       else .warn)) ∧
    (sc = 404 →
      containsStr (VerifyURL probe url file line text checkID now).message "404" = true) := by
  have hattempt :
      (match probe.head with
        | .ok s => (.ok s : Except String Int)
        | .error _ => probe.get) = .ok sc := by
    rcases hresp with h | ⟨⟨e, he⟩, hg⟩
    · rw [h]
    · rw [he]; exact hg
  constructor
  · unfold VerifyURL
    rw [hbuild]
    simp only [hattempt]
  · intro h404
    unfold VerifyURL
    rw [hbuild]
    simp only [hattempt, h404]
    norm_num
    show containsChars (("URL " ++ goQ url ++ " returned client error (HTTP " ++
      toString (404 : Int) ++ ")").data) ("404".data) = true
    rw [show ("URL " ++ goQ url ++ " returned client error (HTTP " ++
        toString (404 : Int) ++ ")") =
      ("URL " ++ goQ url) ++ (" returned client error (HTTP " ++
        toString (404 : Int) ++ ")") by simp [String.append_assoc]]
    rw [String.data_append]
    apply containsChars_append_right
    decide

/-- Witness for C5: a probe answering 404 on HEAD yields a fail outcome
whose message contains "404". -/
theorem C5_url_status_classification_witness :
    ((⟨none, .ok 404, .ok 200⟩ : URLProbe).buildError = none ∧
      ((⟨none, .ok 404, .ok 200⟩ : URLProbe).head = .ok 404 ∨
        ((∃ e, (⟨none, .ok 404, .ok 200⟩ : URLProbe).head = .error e) ∧
          (⟨none, .ok 404, .ok 200⟩ : URLProbe).get = .ok 404))) ∧
    ((VerifyURL ⟨none, .ok 404, .ok 200⟩ "https://x.io/a" "doc.qmd" 4 "t" "c" 0).status =
      (if (200 : Int) ≤ 404 ∧ (404 : Int) < 400 then .pass
       else if (400 : Int) ≤ 404 ∧ (404 : Int) < 500 then .fail
       else .warn)) ∧
    ((404 : Int) = 404 →
      containsStr (VerifyURL ⟨none, .ok 404, .ok 200⟩ "https://x.io/a" "doc.qmd"
        4 "t" "c" 0).message "404" = true) :=
  ⟨⟨rfl, Or.inl rfl⟩,
    C5_url_status_classification ⟨none, .ok 404, .ok 200⟩ "https://x.io/a" "doc.qmd"
      4 "t" "c" 0 404 rfl (Or.inl rfl)⟩

/-- C2: for every code permalink whose file exists at the given commit —
the file-metadata API returned a size, from which the line count is only
estimated (size/30, floored at 1, always flagged estimated) —
`VerifyCodeLink` produces an outcome (no panic) with status warn, never
fail, and reports `lineRangeValid` as true in the details. -/
theorem C2_estimated_line_count_warns
    (o : GhOracle) (link : CodeLinkMatch) (file : String) (line : Nat)
    (text checkID : String) (now : Nat) (size : Int)
    (havail : o.available = true)
    (hapi : o.api link.Owner link.Repo link.CommitSHA link.FilePath = .sized size) :
    ∃ r, VerifyCodeLink o link file line text checkID now = some r ∧
      r.status = .warn ∧ r.status ≠ .fail ∧
      r.details.codeLink = some ⟨link.FullURL, true, true⟩ := by
  unfold VerifyCodeLink checkFileExistsAtCommit
  rw [havail, hapi]
  refine ⟨_, rfl, rfl, ?_, rfl⟩
  simp

/-- Witness for C2: a concrete oracle reporting a 10-byte file makes a
concrete permalink check warn with `lineRangeValid = true`. -/
theorem C2_estimated_line_count_warns_witness :
    ((⟨true, fun _ _ _ _ => .sized 10⟩ : GhOracle).available = true ∧
      (⟨true, fun _ _ _ _ => .sized 10⟩ : GhOracle).api "o" "r" "abcdef12" "f.go" =
        .sized 10) ∧
    ∃ r, VerifyCodeLink ⟨true, fun _ _ _ _ => .sized 10⟩
        ⟨"https://github.com/o/r/blob/abcdef12/f.go#L100-L200", "o", "r", "abcdef12",
          "f.go", 100, 200⟩ "doc.qmd" 2 "t" "c" 0 = some r ∧
      r.status = .warn ∧ r.status ≠ .fail ∧
      r.details.codeLink =
        some ⟨"https://github.com/o/r/blob/abcdef12/f.go#L100-L200", true, true⟩ :=
  ⟨⟨rfl, rfl⟩,
    C2_estimated_line_count_warns ⟨true, fun _ _ _ _ => .sized 10⟩
      ⟨"https://github.com/o/r/blob/abcdef12/f.go#L100-L200", "o", "r", "abcdef12",
        "f.go", 100, 200⟩ "doc.qmd" 2 "t" "c" 0 10 rfl rfl⟩

end Scribe

namespace Scribe

/-- C9: the extraction pattern accepts commit identifiers of one or more
hex digits (second conjunct: a 3-digit commit is parsed), and for every
permalink whose commit identifier is shorter than 8 characters and whose
file does not exist at that commit (the API reports 404), formatting the
failure message slices `CommitSHA[:8]` and panics — in both variants of
`VerifyCodeLink` — instead of returning a fail outcome. -/
theorem C9_short_commit_panics :
    (∀ (o : GhOracle) (link : CodeLinkMatch) (file : String) (line : Nat)
       (text checkID : String) (now : Nat) (st : String),
      o.available = true →
      o.api link.Owner link.Repo link.CommitSHA link.FilePath = .runFailure st →
      containsStr st "404" = true →
      link.CommitSHA.data.length < 8 →
      VerifyCodeLink o link file line text checkID now = none ∧
        VerifyCodeLinkStrict o link file line text checkID now = none) ∧
    ExtractCodeLinks "https://github.com/o/r/blob/abc/f.go#L1" =
      [⟨"https://github.com/o/r/blob/abc/f.go#L1", "o", "r", "abc", "f.go", 1, 1⟩] := by
  constructor
  · intro o link file line text checkID now st havail hapi h404 hshort
    have hslice : goStringSlice link.CommitSHA 8 = none := by
      unfold goStringSlice
      rw [if_neg (by omega)]
    have hcheck : checkFileExistsAtCommit o link.Owner link.Repo link.CommitSHA
        link.FilePath = .ok (false, 0, false) := by
      unfold checkFileExistsAtCommit
      rw [hapi]
      simp [h404]
    have hcheck2 : checkFileAtCommit o link.Owner link.Repo link.CommitSHA
        link.FilePath = .ok (false, 0) := by
      unfold checkFileAtCommit
      rw [hapi]
      simp [h404]
    constructor
    · unfold VerifyCodeLink
      rw [havail, hcheck]
      simp [hslice]
    · unfold VerifyCodeLinkStrict
      rw [havail, hcheck2]
      simp [hslice]
  · decide

/-- Witness for C9: the link extracted from a permalink with a 3-hex
commit, fed to a 404-answering oracle, makes both verifiers panic. -/
theorem C9_short_commit_panics_witness :
    ((⟨true, fun _ _ _ _ => .runFailure "HTTP 404: Not Found"⟩ : GhOracle).available = true ∧
      containsStr "HTTP 404: Not Found" "404" = true ∧
      ("abc" : String).data.length < 8) ∧
    VerifyCodeLink ⟨true, fun _ _ _ _ => .runFailure "HTTP 404: Not Found"⟩
      ⟨"https://github.com/o/r/blob/abc/f.go#L1", "o", "r", "abc", "f.go", 1, 1⟩
      "doc.qmd" 1 "t" "c" 0 = none ∧
    VerifyCodeLinkStrict ⟨true, fun _ _ _ _ => .runFailure "HTTP 404: Not Found"⟩
      ⟨"https://github.com/o/r/blob/abc/f.go#L1", "o", "r", "abc", "f.go", 1, 1⟩
      "doc.qmd" 1 "t" "c" 0 = none :=
  ⟨⟨rfl, by decide, by decide⟩,
    C9_short_commit_panics.1 ⟨true, fun _ _ _ _ => .runFailure "HTTP 404: Not Found"⟩
      ⟨"https://github.com/o/r/blob/abc/f.go#L1", "o", "r", "abc", "f.go", 1, 1⟩
      "doc.qmd" 1 "t" "c" 0 "HTTP 404: Not Found" rfl rfl (by decide) (by decide)⟩

/-- C3 counterexample: the claim says every verifier answers `warn` when
its backend tool is missing, but `VerifyCitation` with the `bip` CLI
absent returns status `fail` (and not `warn`). -/
theorem C3_counterexample :
    (VerifyCitation ⟨false, fun _ => .success⟩ "tavare1986" "doc.qmd" 3
        "See @paper:tavare1986." "c" 0).status = .fail ∧
    (VerifyCitation ⟨false, fun _ => .success⟩ "tavare1986" "doc.qmd" 3
        "See @paper:tavare1986." "c" 0).status ≠ .warn := by
  decide

/-- C3 (amended): oracle unavailability is downgraded to warn for the
code-permalink verifier (missing `gh`), and the claim verifier falls back
to its heuristic result when no LLM provider is available (so a sentence
the heuristics do not flag still passes); but the citation verifier
treats a missing `bip` CLI as an error and returns `fail`, not `warn`. -/
theorem C3_oracle_unavailability_amended :
    (∀ (o : GhOracle) (link : CodeLinkMatch) (file : String) (line : Nat)
       (text checkID : String) (now : Nat),
      o.available = false →
      (∃ r, VerifyCodeLink o link file line text checkID now = some r ∧
        r.status = .warn) ∧
      (∃ r, VerifyCodeLinkStrict o link file line text checkID now = some r ∧
        r.status = .warn)) ∧
    (∀ (o : LLMOracle) (sentence file : String) (line : Nat) (useLLM : Bool)
       (checkID : String) (now : Nat),
      llmIsAvailable o = false →
      (AnalyzeClaimWithHeuristics sentence).1 = false →
      (VerifyClaim o sentence file line false useLLM checkID now).status = .pass) ∧
    (∀ (o : BipOracle) (paperID file : String) (line : Nat)
       (text checkID : String) (now : Nat),
      o.available = false →
      (VerifyCitation o paperID file line text checkID now).status = .fail) := by
  refine ⟨?_, ?_, ?_⟩
  · intro o link file line text checkID now h
    constructor
    · unfold VerifyCodeLink
      rw [h]
      exact ⟨_, rfl, rfl⟩
    · unfold VerifyCodeLinkStrict
      rw [h]
      exact ⟨_, rfl, rfl⟩
  · intro o sentence file line useLLM checkID now hllm hheur
    unfold VerifyClaim
    rw [hllm]
    simp [hheur]
  · intro o paperID file line text checkID now h
    unfold VerifyCitation lookupPaperInBipartite
    rw [h]
    rfl

/-- Witness for C3's amended statement: concrete unavailable oracles for
all three verifiers. -/
theorem C3_oracle_unavailability_amended_witness :
    ((⟨false, fun _ _ _ _ => .sized 0⟩ : GhOracle).available = false ∧
      llmIsAvailable ⟨false, false, fun _ _ => .error "x"⟩ = false ∧
      (AnalyzeClaimWithHeuristics "Nothing notable in this sentence here.").1 = false ∧
      (⟨false, fun _ => .success⟩ : BipOracle).available = false) ∧
    (∃ r, VerifyCodeLink ⟨false, fun _ _ _ _ => .sized 0⟩
        ⟨"u", "o", "r", "abcdef12", "f.go", 1, 1⟩ "d" 1 "t" "c" 0 = some r ∧
      r.status = .warn) ∧
    (VerifyClaim ⟨false, false, fun _ _ => .error "x"⟩
        "Nothing notable in this sentence here." "d" 1 false true "c" 0).status = .pass ∧
    (VerifyCitation ⟨false, fun _ => .success⟩ "a" "d" 1 "t" "c" 0).status = .fail :=
  ⟨⟨rfl, rfl, by decide, rfl⟩,
    (C3_oracle_unavailability_amended.1 ⟨false, fun _ _ _ _ => .sized 0⟩
      ⟨"u", "o", "r", "abcdef12", "f.go", 1, 1⟩ "d" 1 "t" "c" 0 rfl).1,
    C3_oracle_unavailability_amended.2.1 ⟨false, false, fun _ _ => .error "x"⟩
      "Nothing notable in this sentence here." "d" 1 true "c" 0 rfl (by decide),
    C3_oracle_unavailability_amended.2.2 ⟨false, fun _ => .success⟩ "a" "d" 1 "t" "c" 0 rfl⟩

end Scribe

namespace Scribe

theorem takeWhile_all_stop (p : Char → Bool) (l₁ : List Char)
    (h : ∀ c ∈ l₁, p c = true) (x : Char) (hx : p x = false) (l₂ : List Char) :
    (l₁ ++ x :: l₂).takeWhile p = l₁ := by
  induction l₁ with
  | nil => simp [List.takeWhile_cons, hx]
  | cons c t ih =>
    rw [List.cons_append, List.takeWhile_cons,
      if_pos (h c (List.mem_cons_self _ _)),
      ih (fun c hc => h c (List.mem_cons_of_mem _ hc))]

theorem anchorTail_last (a b : List Char) (hb : ∀ c ∈ b, c ≠ '#') :
    anchorTail (a ++ '#' :: b) = b := by
  unfold anchorTail
  rw [List.reverse_append, List.reverse_cons, List.append_assoc,
    List.singleton_append]
  rw [takeWhile_all_stop _ _ ?_ _ (by decide) _, List.reverse_reverse]
  intro c hc
  simpa using hb c (List.mem_reverse.mp hc)

theorem parseLineAnchor_split (s : Nat) (r : List Char) :
    ((parseLineAnchor s r).2.1 = [] ∧ (parseLineAnchor s r).1 = s) ∨
      (∃ ds2, (parseLineAnchor s r).2.1 = '-' :: 'L' :: ds2 ∧
        ∀ c ∈ ds2, c.isDigit = true) := by
  unfold parseLineAnchor
  dsimp only
  split
  · split
    · left; exact ⟨rfl, rfl⟩
    · right
      exact ⟨_, rfl, fun c hc => List.mem_takeWhile_imp hc⟩
  · left; exact ⟨rfl, rfl⟩

theorem permalink_fields_anchor (owner repo commit path r9 : List Char) :
    ∃ pre ds extra,
      ("https://github.com/".data ++ owner ++ '/' :: repo ++ "/blob/".data ++ commit ++
          '/' :: path ++ '#' :: 'L' :: r9.takeWhile Char.isDigit) ++
        (parseLineAnchor (digitsToNat (r9.takeWhile Char.isDigit))
          (r9.dropWhile Char.isDigit)).2.1 =
        pre ++ '#' :: 'L' :: (ds ++ extra) ∧
      (∀ c ∈ ds, c.isDigit = true) ∧
      ((extra = [] ∧
          (parseLineAnchor (digitsToNat (r9.takeWhile Char.isDigit))
            (r9.dropWhile Char.isDigit)).1 = digitsToNat (r9.takeWhile Char.isDigit)) ∨
        (∃ ds2, extra = '-' :: 'L' :: ds2 ∧ ∀ c ∈ ds2, c.isDigit = true)) := by
  refine ⟨"https://github.com/".data ++ owner ++ '/' :: repo ++ "/blob/".data ++ commit ++
      '/' :: path,
    r9.takeWhile Char.isDigit,
    (parseLineAnchor (digitsToNat (r9.takeWhile Char.isDigit))
      (r9.dropWhile Char.isDigit)).2.1,
    ?_, fun c hc => List.mem_takeWhile_imp hc, parseLineAnchor_split _ _⟩
  simp

theorem parsePermalinkAt_anchor (cs : List Char) (m : CodeLinkMatch)
    (rest : List Char) (h : parsePermalinkAt cs = some (m, rest)) :
    ∃ pre ds extra,
      m.FullURL.data = pre ++ '#' :: 'L' :: (ds ++ extra) ∧
      (∀ c ∈ ds, c.isDigit = true) ∧
      ((extra = [] ∧ m.EndLine = m.StartLine) ∨
        (∃ ds2, extra = '-' :: 'L' :: ds2 ∧ ∀ c ∈ ds2, c.isDigit = true)) := by
  unfold parsePermalinkAt at h
  dsimp only at h
  repeat' split at h
  any_goals exact Option.noConfusion h
  rw [Option.some_inj, Prod.mk.injEq] at h
  obtain ⟨hm, -⟩ := h
  subst hm
  exact permalink_fields_anchor _ _ _ _ _

theorem mem_scanCodeLinks (fuel : Nat) (cs : List Char) (m : CodeLinkMatch)
    (h : m ∈ scanCodeLinks fuel cs) :
    ∃ l rest, parsePermalinkAt l = some (m, rest) := by
  induction fuel generalizing cs with
  | zero => simp [scanCodeLinks] at h
  | succ fuel ih =>
    cases cs with
    | nil => simp [scanCodeLinks] at h
    | cons c t =>
      rw [scanCodeLinks] at h
      cases hp : parsePermalinkAt (c :: t) with
      | none =>
        rw [hp] at h
        exact ih _ h
      | some pr =>
        rw [hp] at h
        rcases List.mem_cons.mp h with h1 | h2
        · exact ⟨c :: t, pr.2, by rw [hp, h1]⟩
        · exact ih _ h2

end Scribe

namespace Scribe

/-- C4 counterexample: the claim asserts `StartLine ≤ EndLine` for every
parsed occurrence, but a permalink with an explicit end anchor smaller
than the start anchor (`#L10-L5`) is parsed verbatim, yielding
`StartLine = 10 > EndLine = 5`. -/
theorem C4_counterexample :
    ¬ ∀ m ∈ ExtractCodeLinks "https://github.com/o/r/blob/abc/f.go#L10-L5",
        m.StartLine ≤ m.EndLine := by
  decide

/-- C4 (amended): for every occurrence produced by `ExtractCodeLinks`
whose URL carries only a single line anchor — everything after the final
`'#'` of the matched text (which always starts its line anchor) is `'L'`
followed by digits only, i.e. there is no `-L<end>` part — `EndLine`
equals `StartLine`, and hence `StartLine ≤ EndLine`.  With an explicit
end anchor the end line is taken verbatim and may be smaller than the
start line. -/
theorem C4_single_anchor_amended (content : String) (m : CodeLinkMatch)
    (hm : m ∈ ExtractCodeLinks content)
    (hsingle : (anchorTail m.FullURL.data).tail.all Char.isDigit = true) :
    m.EndLine = m.StartLine ∧ m.StartLine ≤ m.EndLine := by
  obtain ⟨l, rest, hp⟩ := mem_scanCodeLinks _ _ _ hm
  obtain ⟨pre, ds, extra, hurl, hds, hcase⟩ := parsePermalinkAt_anchor l m rest hp
  have htail : anchorTail m.FullURL.data = 'L' :: (ds ++ extra) := by
    rw [hurl]
    apply anchorTail_last
    intro c hc
    rcases List.mem_cons.mp hc with h1 | h1
    · subst h1; decide
    · rcases List.mem_append.mp h1 with h2 | h2
      · intro hEq
        subst hEq
        exact absurd (hds _ h2) (by decide)
      · rcases hcase with ⟨he, -⟩ | ⟨ds2, hex, hdig⟩
        · rw [he] at h2
          simp at h2
        · rw [hex] at h2
          rcases List.mem_cons.mp h2 with h3 | h3
          · subst h3; decide
          · rcases List.mem_cons.mp h3 with h4 | h4
            · subst h4; decide
            · intro hEq
              subst hEq
              exact absurd (hdig _ h4) (by decide)
  rcases hcase with ⟨-, hEnd⟩ | ⟨ds2, hex, -⟩
  · exact ⟨hEnd, le_of_eq hEnd.symm⟩
  · exfalso
    rw [htail, List.tail_cons, hex] at hsingle
    have hdash : ('-' : Char) ∈ ds ++ '-' :: 'L' :: ds2 :=
      List.mem_append_right _ (List.mem_cons_self _ _)
    exact absurd (List.all_eq_true.mp hsingle '-' hdash) (by decide)

/-- Witness for C4's amended statement: a single-anchor permalink whose
repo name contains "-L" still parses with `EndLine = StartLine = 7`. -/
theorem C4_single_anchor_amended_witness :
    ((⟨"https://github.com/o/my-Lib/blob/abc/f.go#L7", "o", "my-Lib", "abc",
        "f.go", 7, 7⟩ : CodeLinkMatch) ∈
        ExtractCodeLinks "https://github.com/o/my-Lib/blob/abc/f.go#L7" ∧
      (anchorTail ("https://github.com/o/my-Lib/blob/abc/f.go#L7" : String).data).tail.all
        Char.isDigit = true) ∧
    ((⟨"https://github.com/o/my-Lib/blob/abc/f.go#L7", "o", "my-Lib", "abc",
        "f.go", 7, 7⟩ : CodeLinkMatch).EndLine =
      (⟨"https://github.com/o/my-Lib/blob/abc/f.go#L7", "o", "my-Lib", "abc",
        "f.go", 7, 7⟩ : CodeLinkMatch).StartLine ∧
      (⟨"https://github.com/o/my-Lib/blob/abc/f.go#L7", "o", "my-Lib", "abc",
        "f.go", 7, 7⟩ : CodeLinkMatch).StartLine ≤
      (⟨"https://github.com/o/my-Lib/blob/abc/f.go#L7", "o", "my-Lib", "abc",
        "f.go", 7, 7⟩ : CodeLinkMatch).EndLine) :=
  ⟨⟨by decide, by decide⟩,
    C4_single_anchor_amended "https://github.com/o/my-Lib/blob/abc/f.go#L7" _
      (by decide) (by decide)⟩

end Scribe

namespace Scribe

theorem dedupGo_subset (l : List String) :
    ∀ (seen : List String) (x : String), x ∈ dedupGo seen l → x ∈ l ∧ x ∉ seen := by
  induction l with
  | nil => intro seen x hx; simp [dedupGo] at hx
  | cons t ts ih =>
    intro seen x hx
    by_cases ht : t ∈ seen
    · rw [dedupGo, if_pos ht] at hx
      obtain ⟨h1, h2⟩ := ih seen x hx
      exact ⟨List.mem_cons_of_mem _ h1, h2⟩
    · rw [dedupGo, if_neg ht] at hx
      rcases List.mem_cons.mp hx with h1 | h1
      · exact ⟨h1 ▸ List.mem_cons_self _ _, h1 ▸ ht⟩
      · obtain ⟨h2, h3⟩ := ih (t :: seen) x h1
        exact ⟨List.mem_cons_of_mem _ h2, fun hc => h3 (List.mem_cons_of_mem _ hc)⟩

theorem dedupGo_mem_of (l : List String) :
    ∀ (seen : List String) (x : String), x ∈ l → x ∉ seen → x ∈ dedupGo seen l := by
  induction l with
  | nil => intro seen x hx; simp at hx
  | cons t ts ih =>
    intro seen x hx hs
    by_cases ht : t ∈ seen
    · rw [dedupGo, if_pos ht]
      rcases List.mem_cons.mp hx with h1 | h1
      · exact absurd (h1 ▸ ht) hs
      · exact ih seen x h1 hs
    · rw [dedupGo, if_neg ht]
      rcases List.mem_cons.mp hx with h1 | h1
      · exact h1 ▸ List.mem_cons_self _ _
      · by_cases hxt : x = t
        · exact hxt ▸ List.mem_cons_self _ _
        · exact List.mem_cons_of_mem _ (ih (t :: seen) x h1 (by simp [hxt, hs]))

theorem dedupGo_nodup (l : List String) :
    ∀ (seen : List String), (dedupGo seen l).Nodup := by
  induction l with
  | nil => intro seen; simp [dedupGo]
  | cons t ts ih =>
    intro seen
    by_cases ht : t ∈ seen
    · rw [dedupGo, if_pos ht]; exact ih seen
    · rw [dedupGo, if_neg ht]
      refine List.Pairwise.cons ?_ (ih (t :: seen))
      intro b hb
      have := (dedupGo_subset ts (t :: seen) b hb).2
      intro hbt
      exact this (hbt ▸ List.mem_cons_self _ _)

theorem dedupGo_pairwise (l : List String) :
    ∀ (seen : List String),
      (dedupGo seen l).Pairwise (fun a b => l.indexOf a < l.indexOf b) := by
  induction l with
  | nil => intro seen; simp [dedupGo]
  | cons t ts ih =>
    intro seen
    by_cases ht : t ∈ seen
    · rw [dedupGo, if_pos ht]
      refine (ih seen).imp_of_mem ?_
      intro a b ha hb hlt
      have hat : a ≠ t := fun h =>
        (dedupGo_subset ts seen a ha).2 (h ▸ ht)
      have hbt : b ≠ t := fun h =>
        (dedupGo_subset ts seen b hb).2 (h ▸ ht)
      rw [List.indexOf_cons_ne _ (Ne.symm hat), List.indexOf_cons_ne _ (Ne.symm hbt)]
      exact Nat.succ_lt_succ hlt
    · rw [dedupGo, if_neg ht]
      refine List.Pairwise.cons ?_ ?_
      · intro b hb
        have hbt : b ≠ t := fun h =>
          (dedupGo_subset ts (t :: seen) b hb).2 (h ▸ List.mem_cons_self _ _)
        rw [List.indexOf_cons_self, List.indexOf_cons_ne _ (Ne.symm hbt)]
        exact Nat.succ_pos _
      · refine (ih (t :: seen)).imp_of_mem ?_
        intro a b ha hb hlt
        have hat : a ≠ t := fun h =>
          (dedupGo_subset ts (t :: seen) a ha).2 (h ▸ List.mem_cons_self _ _)
        have hbt : b ≠ t := fun h =>
          (dedupGo_subset ts (t :: seen) b hb).2 (h ▸ List.mem_cons_self _ _)
        rw [List.indexOf_cons_ne _ (Ne.symm hat), List.indexOf_cons_ne _ (Ne.symm hbt)]
        exact Nat.succ_lt_succ hlt

/-- C7: for every input text `T`, `ExtractCitations T` is duplicate-free;
it contains exactly the tokens of the raw (pre-deduplication) match
sequence of `T`; its elements are ordered by their first occurrence in
that raw sequence (first-seen order); and re-running it on the same `T`
yields an identical list (the function is pure, so determinism is
definitional). -/
theorem C7_extract_citations_spec (T : String) :
    (ExtractCitations T).Nodup ∧
    (∀ x, x ∈ ExtractCitations T ↔ x ∈ rawCitationTokens T) ∧
    (ExtractCitations T).Pairwise
      (fun a b => (rawCitationTokens T).indexOf a < (rawCitationTokens T).indexOf b) ∧
    ExtractCitations T = ExtractCitations T := by
  refine ⟨dedupGo_nodup _ _, ?_, dedupGo_pairwise _ _, rfl⟩
  intro x
  constructor
  · intro hx
    exact (dedupGo_subset _ _ _ hx).1
  · intro hx
    exact dedupGo_mem_of _ _ _ hx (List.not_mem_nil x)

end Scribe

namespace Scribe

/-- C6 counterexample: the claim says a citation marker on the
immediately preceding line short-circuits the claim check to pass, but
the code checks `lines[lineNum-1]` — the sentence's own line — so a
marker that sits only on the preceding line does not short-circuit:
`hasCitation` computes to false and, the sentence matching a must-cite
heuristic, the claim check in a full `VerifyFile` run fails at line 2. -/
theorem C6_counterexample :
    citationMatchString "Method A is 40% faster than method B." = false ∧
    citationMatchString "@paper:x" = true ∧
    hasCitationForSentence "Method A is 40% faster than method B." 2
      ["@paper:x", "Method A is 40% faster than method B."] = false ∧
    (VerifyClaim ⟨false, false, fun _ _ => .error "e"⟩
        "Method A is 40% faster than method B." "doc.qmd" 2
        (hasCitationForSentence "Method A is 40% faster than method B." 2
          ["@paper:x", "Method A is 40% faster than method B."])
        true "c" 0).status = .fail ∧
    ((VerifyFile ⟨⟨false, fun _ => .success⟩, fun _ => ⟨none, .error "e", .error "e"⟩,
        ⟨false, fun _ _ _ _ => .runFailure ""⟩, ⟨false, false, fun _ _ => .error "e"⟩,
        fun n => toString n, 0⟩ DefaultOptions "doc.qmd"
        "@paper:x\nMethod A is 40% faster than method B.").getD []).any
      (fun r => decide (r.checkType = .claim) && decide (r.status = .fail) &&
        decide (r.target.line = 2)) = true := by
  refine ⟨by decide, by decide, by decide, by decide, by decide⟩

/-- C6 (amended): for every claim sentence whose `hasCitation` flag is
set — the marker is inside the sentence or anywhere on the line
containing it — `VerifyClaim` returns status pass, regardless of what
the heuristic patterns would say, and independently of the LLM oracle
(the same result for any two oracles, i.e. the oracle is not
consulted). -/
theorem C6_citation_short_circuit_amended
    (o o' : LLMOracle) (lines : List String) (sentence file : String)
    (lineNum : Nat) (useLLM : Bool) (checkID : String) (now : Nat)
    (h : hasCitationForSentence sentence lineNum lines = true) :
    (VerifyClaim o sentence file lineNum
        (hasCitationForSentence sentence lineNum lines) useLLM checkID now).status =
      .pass ∧
    VerifyClaim o sentence file lineNum
        (hasCitationForSentence sentence lineNum lines) useLLM checkID now =
      VerifyClaim o' sentence file lineNum
        (hasCitationForSentence sentence lineNum lines) useLLM checkID now := by
  rw [h]
  constructor
  · unfold VerifyClaim
    simp
  · unfold VerifyClaim
    simp

/-- Witness for C6's amended statement: a sentence carrying its own
marker passes under two different LLM oracles. -/
theorem C6_citation_short_circuit_amended_witness :
    hasCitationForSentence "See @paper:y for more details on this." 1
      ["See @paper:y for more details on this."] = true ∧
    (VerifyClaim ⟨true, false, fun _ _ => .ok ⟨true, "high", "r", "a"⟩⟩
        "See @paper:y for more details on this." "doc.qmd" 1
        (hasCitationForSentence "See @paper:y for more details on this." 1
          ["See @paper:y for more details on this."]) true "c" 0).status = .pass ∧
    VerifyClaim ⟨true, false, fun _ _ => .ok ⟨true, "high", "r", "a"⟩⟩
        "See @paper:y for more details on this." "doc.qmd" 1
        (hasCitationForSentence "See @paper:y for more details on this." 1
          ["See @paper:y for more details on this."]) true "c" 0 =
      VerifyClaim ⟨false, false, fun _ _ => .error "e"⟩
        "See @paper:y for more details on this." "doc.qmd" 1
        (hasCitationForSentence "See @paper:y for more details on this." 1
          ["See @paper:y for more details on this."]) true "c" 0 :=
  ⟨by decide,
    C6_citation_short_circuit_amended
      ⟨true, false, fun _ _ => .ok ⟨true, "high", "r", "a"⟩⟩
      ⟨false, false, fun _ _ => .error "e"⟩
      ["See @paper:y for more details on this."]
      "See @paper:y for more details on this." "doc.qmd" 1 true "c" 0 (by decide)⟩

end Scribe

namespace Scribe

theorem VerifyCitation_checkType (o : BipOracle) (paperID file : String)
    (line : Nat) (text checkID : String) (now : Nat) :
    (VerifyCitation o paperID file line text checkID now).checkType = .citation := by
  unfold VerifyCitation
  split <;> rfl

theorem VerifyURL_checkType (probe : URLProbe) (url file : String) (line : Nat)
    (text checkID : String) (now : Nat) :
    (VerifyURL probe url file line text checkID now).checkType = .url := by
  unfold VerifyURL
  dsimp only
  repeat' split
  all_goals rfl

theorem VerifyTodoMarker_checkType (marker file : String) (line : Nat)
    (text checkID : String) (now : Nat) :
    (VerifyTodoMarker marker file line text checkID now).checkType = .todoMarker := rfl

theorem VerifyCodeLink_checkType (o : GhOracle) (link : CodeLinkMatch)
    (file : String) (line : Nat) (text checkID : String) (now : Nat)
    (r : VerificationResult)
    (h : VerifyCodeLink o link file line text checkID now = some r) :
    r.checkType = .codeLink := by
  unfold VerifyCodeLink at h
  dsimp only at h
  repeat' split at h
  all_goals first
    | exact Option.noConfusion h
    | (cases h; rfl)

theorem mem_foldl_step {α : Type} (Q : VerificationResult → Prop) (l : List α)
    (f : List VerificationResult → α → List VerificationResult)
    (hf : ∀ acc a r, r ∈ f acc a → r ∈ acc ∨ Q r) :
    ∀ acc r, r ∈ l.foldl f acc → r ∈ acc ∨ Q r := by
  induction l with
  | nil => intro acc r h; exact Or.inl h
  | cons a l ih =>
    intro acc r h
    rw [List.foldl_cons] at h
    rcases ih _ r h with h1 | h1
    · exact hf acc a r h1
    · exact Or.inr h1

theorem mem_foldlM_option {α : Type} (Q : VerificationResult → Prop) (l : List α)
    (f : List VerificationResult → α → Option (List VerificationResult))
    (hf : ∀ acc a out, f acc a = some out → ∀ r ∈ out, r ∈ acc ∨ Q r) :
    ∀ acc out, l.foldlM f acc = some out → ∀ r ∈ out, r ∈ acc ∨ Q r := by
  induction l with
  | nil =>
    intro acc out h r hr
    rw [List.foldlM_nil] at h
    cases h
    exact Or.inl hr
  | cons a l ih =>
    intro acc out h r hr
    rw [List.foldlM_cons] at h
    cases hfa : f acc a with
    | none =>
      rw [hfa] at h
      exact Option.noConfusion h
    | some acc1 =>
      rw [hfa] at h
      replace h : List.foldlM f acc1 l = some out := h
      rcases ih acc1 out h r hr with h1 | h1
      · exact hf acc a acc1 hfa r h1
      · exact Or.inr h1

end Scribe

namespace Scribe

theorem todoLineChecks_mem (env : FileEnv) (filePath : String)
    (lines : List String) (acc : List VerificationResult) (r : VerificationResult)
    (h : r ∈ todoLineChecks env filePath lines acc) :
    r ∈ acc ∨ (r.checkType = .claim → r.status = .fail) := by
  refine mem_foldl_step (fun r => r.checkType = .claim → r.status = .fail) _ _ ?_ acc r h
  intro acc' i r' hr'
  try dsimp only at hr'
  split at hr'
  · refine mem_foldl_step (fun r => r.checkType = .claim → r.status = .fail) _ _ ?_ acc' r' hr'
    intro acc2 m r2 hr2
    rcases List.mem_append.mp hr2 with h2 | h2
    · exact Or.inl h2
    · refine Or.inr fun hc => ?_
      rw [List.mem_singleton.mp h2] at hc
      rw [VerifyTodoMarker_checkType] at hc
      exact CheckType.noConfusion hc
  · exact Or.inl hr'

theorem citationChecks_mem (env : FileEnv) (filePath content : String)
    (lines : List String) (acc : List VerificationResult) (r : VerificationResult)
    (h : r ∈ citationChecks env filePath content lines acc) :
    r ∈ acc ∨ (r.checkType = .claim → r.status = .fail) := by
  refine mem_foldl_step (fun r => r.checkType = .claim → r.status = .fail) _ _ ?_ acc r h
  intro acc' c r' hr'
  try dsimp only at hr'
  rcases List.mem_append.mp hr' with h2 | h2
  · exact Or.inl h2
  · refine Or.inr fun hc => ?_
    rw [List.mem_singleton.mp h2] at hc
    rw [VerifyCitation_checkType] at hc
    exact CheckType.noConfusion hc

theorem urlChecks_mem (env : FileEnv) (filePath content : String)
    (lines : List String) (acc : List VerificationResult) (r : VerificationResult)
    (h : r ∈ urlChecks env filePath content lines acc) :
    r ∈ acc ∨ (r.checkType = .claim → r.status = .fail) := by
  refine mem_foldl_step (fun r => r.checkType = .claim → r.status = .fail) _ _ ?_ acc r h
  intro acc' u r' hr'
  try dsimp only at hr'
  split at hr'
  · exact Or.inl hr'
  · rcases List.mem_append.mp hr' with h2 | h2
    · exact Or.inl h2
    · refine Or.inr fun hc => ?_
      rw [List.mem_singleton.mp h2] at hc
      rw [VerifyURL_checkType] at hc
      exact CheckType.noConfusion hc

theorem codeLinkChecks_mem (env : FileEnv) (filePath content : String)
    (lines : List String) (acc out : List VerificationResult)
    (h : codeLinkChecks env filePath content lines acc = some out)
    (r : VerificationResult) (hr : r ∈ out) :
    r ∈ acc ∨ (r.checkType = .claim → r.status = .fail) := by
  refine mem_foldlM_option (fun r => r.checkType = .claim → r.status = .fail) _ _ ?_ acc out h r hr
  intro acc' link out' hf' r' hr'
  try dsimp only at hf'
  obtain ⟨a, ha, hb⟩ := Option.map_eq_some'.mp hf'
  try dsimp only at hb
  rw [← hb] at hr'
  rcases List.mem_append.mp hr' with h2 | h2
  · exact Or.inl h2
  · refine Or.inr fun hc => ?_
    rw [List.mem_singleton.mp h2] at hc
    rw [VerifyCodeLink_checkType _ _ _ _ _ _ _ _ ha] at hc
    exact CheckType.noConfusion hc

theorem claimChecks_mem (env : FileEnv) (opts : Options) (filePath : String)
    (lines : List String) (acc : List VerificationResult) (r : VerificationResult)
    (h : r ∈ claimChecks env opts filePath lines acc) :
    r ∈ acc ∨ (r.checkType = .claim → r.status = .fail) := by
  refine mem_foldl_step (fun r => r.checkType = .claim → r.status = .fail) _ _ ?_ acc r h
  intro acc' i r' hr'
  try dsimp only at hr'
  split at hr'
  · exact Or.inl hr'
  · refine mem_foldl_step (fun r => r.checkType = .claim → r.status = .fail) _ _ ?_ acc' r' hr'
    intro acc2 s r2 hr2
    try dsimp only at hr2
    split at hr2
    · exact Or.inl hr2
    · split at hr2
      · rename_i hfail
        rcases List.mem_append.mp hr2 with h2 | h2
        · exact Or.inl h2
        · refine Or.inr fun _ => ?_
          rw [List.mem_singleton.mp h2]
          exact hfail
      · exact Or.inl hr2

/-- C10: for every environment and input content, the result list
`VerifyFile` returns (when it does not panic) contains no claim-type
result with status pass or warn: claim-check results are appended only
when failing, so every claim-type result in the list has status fail. -/
theorem C10_claim_results_only_fail (env : FileEnv) (opts : Options)
    (filePath content : String) (rs : List VerificationResult)
    (h : VerifyFile env opts filePath content = some rs) :
    ∀ r ∈ rs, r.checkType = .claim → r.status = .fail := by
  unfold VerifyFile at h
  try dsimp only at h
  split at h
  · exact Option.noConfusion h
  · rename_i r4 heq
    rw [Option.some_inj] at h
    subst h
    intro r hr
    rcases claimChecks_mem _ _ _ _ _ _ hr with h4 | hq
    · rcases codeLinkChecks_mem _ _ _ _ _ _ heq _ h4 with h3 | hq
      · rcases urlChecks_mem _ _ _ _ _ _ h3 with h2 | hq
        · rcases citationChecks_mem _ _ _ _ _ _ h2 with h1 | hq
          · rcases todoLineChecks_mem _ _ _ _ _ h1 with h0 | hq
            · exact absurd h0 (List.not_mem_nil r)
            · exact hq
          · exact hq
        · exact hq
      · exact hq
    · exact hq

/-- Witness for C10: a concrete run containing a TODO marker, a failing
citation and a failing uncited claim has only fail-status claim
results. -/
theorem C10_claim_results_only_fail_witness :
    ∃ rs, VerifyFile ⟨⟨false, fun _ => .success⟩,
        fun _ => ⟨none, .error "e", .error "e"⟩,
        ⟨false, fun _ _ _ _ => .runFailure ""⟩,
        ⟨false, false, fun _ _ => .error "e"⟩,
        fun n => toString n, 0⟩ DefaultOptions "doc.qmd"
        "TODO: tidy\nSee @paper:a for a proof.\nMethod A is 40% faster than method B." =
        some rs ∧
      ∀ r ∈ rs, r.checkType = .claim → r.status = .fail := by
  refine ⟨(VerifyFile ⟨⟨false, fun _ => .success⟩,
      fun _ => ⟨none, .error "e", .error "e"⟩,
      ⟨false, fun _ _ _ _ => .runFailure ""⟩,
      ⟨false, false, fun _ _ => .error "e"⟩,
      fun n => toString n, 0⟩ DefaultOptions "doc.qmd"
      "TODO: tidy\nSee @paper:a for a proof.\nMethod A is 40% faster than method B.").getD [],
    ?_, ?_⟩
  · decide
  · exact C10_claim_results_only_fail
      ⟨⟨false, fun _ => .success⟩,
        fun _ => ⟨none, .error "e", .error "e"⟩,
        ⟨false, fun _ _ _ _ => .runFailure ""⟩,
        ⟨false, false, fun _ _ => .error "e"⟩,
        fun n => toString n, 0⟩ DefaultOptions "doc.qmd"
      "TODO: tidy\nSee @paper:a for a proof.\nMethod A is 40% faster than method B."
      _ (by decide)

end Scribe
